import Mathlib

/-!
Verification of the duplicati-restore tool against its specification.

The development shallowly embeds the Rust sources (`src/blockhash.rs`,
`src/restoring.rs`, `src/database.rs`, `src/sorting.rs`, `src/ziparchive.rs`)
into Lean: bytes are `List Nat` (each element a byte value), fallible code
returns `Option`/`Except`, and the streaming SHA-256 hasher is modelled
abstractly as the list of byte chunks fed to it together with an arbitrary
digest function `sha : List Nat → List Nat`.
-/

/-- A byte string, each element standing for one `u8`. -/
abbrev Bytes := List Nat

/-- `BlockIdHash` from `src/blockhash.rs`: a content digest held as raw bytes
(`SmallVec<[u8; 32]>` in the source, which does not itself bound the length). -/
structure BlockIdHash where
  hash : Bytes
deriving DecidableEq, Repr

/-- `BlockIdHash::from_bytes` (`src/blockhash.rs` lines 24–31): reject any
slice whose length is not 32. -/
def BlockIdHash.from_bytes (b : Bytes) : Option BlockIdHash :=
  if b.length ≠ 32 then none else some { hash := b }

/-- The standard base64 alphabet (`base64::engine::general_purpose::STANDARD`). -/
def b64StdChars : List Char :=
  "ABCDEFGHIJKLMNOPQRSTUVWXYZabcdefghijklmnopqrstuvwxyz0123456789+/".toList

/-- The URL-safe base64 alphabet (`base64::engine::general_purpose::URL_SAFE`). -/
def b64UrlChars : List Char :=
  "ABCDEFGHIJKLMNOPQRSTUVWXYZabcdefghijklmnopqrstuvwxyz0123456789-_".toList

/-- Character of the alphabet at a 6-bit index. -/
def b64Char (alphabet : List Char) (i : Nat) : Char := alphabet.getD i 'A'

/-- 6-bit value of a character of the alphabet, if it belongs to it. -/
def b64Value (alphabet : List Char) (c : Char) : Option Nat :=
  alphabet.findIdx? (· = c)

/-- Padded base64 encoding of a byte string (the `Engine::encode_slice`
semantics used by `BlockIdHash::as_base64_config`; both engines of the
source use padding). -/
def encodeB64 (alphabet : List Char) : Bytes → List Char
  | [] => []
  | [b0] =>
      [b64Char alphabet (b0 / 4), b64Char alphabet (b0 % 4 * 16), '=', '=']
  | [b0, b1] =>
      [b64Char alphabet (b0 / 4), b64Char alphabet (b0 % 4 * 16 + b1 / 16),
       b64Char alphabet (b1 % 16 * 4), '=']
  | b0 :: b1 :: b2 :: rest =>
      b64Char alphabet (b0 / 4) :: b64Char alphabet (b0 % 4 * 16 + b1 / 16) ::
      b64Char alphabet (b1 % 16 * 4 + b2 / 64) :: b64Char alphabet (b2 % 64) ::
      encodeB64 alphabet rest

/-- Canonical padded base64 decoding (the `Engine::decode` semantics of the
source's engines: canonical padding required, trailing bits rejected). -/
def decodeB64 (alphabet : List Char) : List Char → Option Bytes
  | [] => some []
  | [c0, c1, '=', '='] =>
      match b64Value alphabet c0, b64Value alphabet c1 with
      | some v0, some v1 =>
          if v1 % 16 = 0 then some [v0 * 4 + v1 / 16] else none
      | _, _ => none
  | [c0, c1, c2, '='] =>
      match b64Value alphabet c0, b64Value alphabet c1, b64Value alphabet c2 with
      | some v0, some v1, some v2 =>
          if v2 % 4 = 0 then some [v0 * 4 + v1 / 16, v1 % 16 * 16 + v2 / 4]
          else none
      | _, _, _ => none
  | c0 :: c1 :: c2 :: c3 :: rest =>
      match b64Value alphabet c0, b64Value alphabet c1, b64Value alphabet c2,
            b64Value alphabet c3, decodeB64 alphabet rest with
      | some v0, some v1, some v2, some v3, some tail =>
          some ((v0 * 4 + v1 / 16) :: (v1 % 16 * 16 + v2 / 4) ::
                (v2 % 4 * 64 + v3) :: tail)
      | _, _, _, _, _ => none
  | _ => none

/-- `base64`'s conservative decoded-length estimate for a general-purpose
engine: `(input_len / 4 + (input_len % 4 > 0)) * 3`.  `decode_slice` refuses
to decode when this estimate exceeds the output slice's length. -/
def b64DecodedLenEstimate (n : Nat) : Nat :=
  (n / 4 + (if n % 4 = 0 then 0 else 1)) * 3

/-- `BlockIdHash::from_base64_config` (`src/blockhash.rs` lines 41–55).

The source borrows the thread-local scratch `Vec<u8>` (created with
`Vec::with_capacity(64)`, hence of length 0) and passes it to
`Engine::decode_slice`, which deref-coerces it to a `&mut [u8]` of length 0.
`decode_slice` therefore fails with `OutputSliceTooSmall` whenever the
decoded-length estimate of the input exceeds 0, i.e. for every non-empty
input; only the empty string decodes, writing 0 bytes.  The digest is then
built with `SmallVec::from_slice` from the `Vec` itself, whose length is
still 0.  The `assert!(block_id_str.len() < buffer.capacity())` panic is
modelled by `Except.error`. -/
def BlockIdHash.from_base64_config (alphabet : List Char) (s : List Char) :
    Except Unit (Option BlockIdHash) :=
  if s.length < 64 then
    .ok (if 0 < b64DecodedLenEstimate s.length then none
         else (decodeB64 alphabet s).map (fun _ => { hash := [] }))
  else
    .error ()

/-- `BlockIdHash::from_base64` (standard alphabet). -/
def BlockIdHash.from_base64 (s : List Char) : Except Unit (Option BlockIdHash) :=
  BlockIdHash.from_base64_config b64StdChars s

/-- `BlockIdHash::from_base64_urlsafe` (URL-safe alphabet). -/
def BlockIdHash.from_base64_urlsafe (s : List Char) :
    Except Unit (Option BlockIdHash) :=
  BlockIdHash.from_base64_config b64UrlChars s

/-- `BlockIdHash::as_base64_config` (`src/blockhash.rs` lines 64–71): encode
the raw digest bytes with the engine's (padded) alphabet; the caller-supplied
buffer is large enough at every call site of the source. -/
def BlockIdHash.as_base64_config (alphabet : List Char) (h : BlockIdHash) :
    List Char :=
  encodeB64 alphabet h.hash

/-- `FileType` from `src/dfiletype.rs`. -/
inductive FileType where
  | File (hash : BlockIdHash) (size : Int) (time : String)
  | Folder (metablockhash : String)
  | SymLink
deriving DecidableEq, Repr

/-- `FileEntry` from `src/dfileentry.rs` (one row of the snapshot); the path
string is modelled as its character list. -/
structure FileEntry where
  path : List Char
  metahash : String
  metasize : Int
  file_type : FileType
  block_lists : List BlockIdHash
deriving DecidableEq, Repr

/-- `ZipLocation` from `src/ziparchive.rs`; the `PathBuf` is abstracted to an
archive identifier whose derived `Ord` is a linear order, modelled on `Nat`. -/
structure ZipLocation where
  path : Nat
deriving DecidableEq, Repr

/-- `BlockLocation` from `src/ziparchive.rs`: which `dblock.zip` holds the
block, and the entry index inside it (`u32`). -/
structure BlockLocation where
  ziplocation : ZipLocation
  file_index : Nat
deriving DecidableEq, Repr

/-- `DFileDatabase` (called `DB` in `src/database.rs`): the manifest block
size together with the two lookup oracles the restore pipeline uses —
`get_content_block` (block bytes by digest, `none` when the digest is absent
from every archive) and `get_block_id_location`. -/
structure DFileDatabase where
  blockSize : Nat
  blocks : BlockIdHash → Option Bytes
  location : BlockIdHash → Option BlockLocation

/-- `DB::block_size` (`src/database.rs`): `manifest.block_size as usize`. -/
def DFileDatabase.block_size (db : DFileDatabase) : Nat := db.blockSize

/-- `DB::offset_size` (`src/database.rs` lines 374–378):
`hashes_per_block * block_size` with `hashes_per_block = block_size / 32`. -/
def DFileDatabase.offset_size (db : DFileDatabase) : Nat :=
  db.blockSize / 32 * db.blockSize

/-- `DB::hash_size` (`src/database.rs`): always 32. -/
def DFileDatabase.hash_size (_ : DFileDatabase) : Nat := 32

/-- Filesystem effects performed by the restore engine. -/
inductive FsEvent where
  | createDir (path : List Char)
  | createFile (path : List Char)
  | write (offset : Nat) (bytes : Bytes)
deriving DecidableEq, Repr

/-- The mutable pieces threaded through one entry's restore: the optional
SHA-256 accumulator (modelled as the chunks fed so far), the filesystem
events performed, and the digests fetched from the archives. -/
structure RunState where
  hasher : Option (List Bytes)
  events : List FsEvent
  fetches : List BlockIdHash
deriving DecidableEq, Repr

/-- The error kinds `restoring.rs` can raise for one entry (the source uses
`eyre` strings; constructors are named after the messages). -/
inductive RestoreError where
  | binaryHashLen
  | missingBlock
  | missingBlocklist
  | shortBlock
  | hashMismatch
deriving DecidableEq, Repr

/-- `RestoreFileContext` from `src/restoring.rs` (the immutable parts): the
abstract SHA-256 digest function, the database, the entry's block lists,
top-level hash and declared size, the strict-block flag (always `true` in
`restore_file`), and whether an output file is open (`absolute_path.is_some()`,
i.e. restore mode rather than verify-only). -/
structure RestoreFileContext where
  sha : Bytes → Bytes
  db : DFileDatabase
  block_lists : List BlockIdHash
  hash : BlockIdHash
  size : Int
  strict_block_size : Bool
  writing : Bool

/-- `RestoreParams` from `src/restoring.rs` (the summary field is unused by
`restore_entry` and omitted). -/
structure RestoreParams where
  db : DFileDatabase
  restore_path : Option (List Char)
  replace_backslash_to_slash : Bool

/-- `dfile_path.replacen(":\x5c", "\x5c", 1)` of `calculate_path`: replace
the first occurrence of a colon-backslash by a backslash. -/
def stripDriveColon : List Char → List Char
  | [] => []
  | c :: rest =>
      if c = ':' ∧ rest.head? = some '\\' then rest
      else c :: stripDriveColon rest

/-- `dfile_path.replace('\x5c', "/")` of `calculate_path`. -/
def backslashToSlash (s : List Char) : List Char :=
  s.map (fun c => if c = '\\' then '/' else c)

/-- `Path::join`: an absolute right operand replaces the root. -/
def pathJoin (root rel : List Char) : List Char :=
  if rel.head? = some '/' then rel
  else if root = [] then rel
  else root ++ '/' :: rel

/-- The path-string transformation of `calculate_path`
(`src/restoring.rs` lines 68–72): strip the first drive colon, then, when
the flag is set, turn every backslash into a slash. -/
def calcDfilePath (replaceFlag : Bool) (p : List Char) : List Char :=
  if replaceFlag then backslashToSlash (stripDriveColon p)
  else stripDriveColon p

/-- `calculate_path` (`src/restoring.rs` lines 65–80): `none` in verify-only
mode, otherwise the absolute and relative output paths. -/
def calculate_path (entry : FileEntry) (params : RestoreParams) :
    Option (List Char × List Char) :=
  params.restore_path.map (fun root =>
    (pathJoin root (calcDfilePath params.replace_backslash_to_slash entry.path),
     calcDfilePath params.replace_backslash_to_slash entry.path))

/-- `update_hasher_maybe` (`src/restoring.rs` lines 204–209): feed the buffer
to the accumulator when one exists. -/
def update_hasher_maybe (st : RunState) (buf : Bytes) : RunState :=
  { st with hasher := st.hasher.map (fun chunks => chunks ++ [buf]) }

/-- One `db.get_content_block(h, buf)` call: record the fetch and return the
block bytes (the cleared scratch buffer stays empty when the digest is
absent). -/
def fetchBlock (db : DFileDatabase) (h : BlockIdHash) (st : RunState) :
    RunState × Option Bytes :=
  ({ st with fetches := st.fetches ++ [h] }, db.blocks h)

/-- The `if let Some(out_file) = …` seek-and-write pattern: record the write
only when an output file is open. -/
def writeAt (writing : Bool) (st : RunState) (offset : Nat) (buf : Bytes) :
    RunState :=
  if writing then { st with events := st.events ++ [.write offset buf] }
  else st

/-- `check_strict_block` (`src/restoring.rs` lines 257–278): the previously
observed block of this loop, if any, must have length exactly
`db.block_size()`; then the current buffer's length is recorded. -/
def check_strict_block (ctx : RestoreFileContext) (buf : Bytes)
    (last_block_size : Option Nat) : Except RestoreError (Option Nat) :=
  if ctx.strict_block_size = false then .ok last_block_size
  else
    match last_block_size with
    | some last =>
        if last ≠ ctx.db.block_size then .error .shortBlock
        else .ok (some buf.length)
    | none => .ok (some buf.length)

/-- `restore_file_multiblock_block` (`src/restoring.rs` lines 211–255):
decode the 32-byte digest, fetch its content block, write it at
`blockhashoffset + block_index * block_size`, feed the hasher, and run the
strict-block check. -/
def restore_file_multiblock_block (ctx : RestoreFileContext) (st : RunState)
    (block_index : Nat) (block_hash : Bytes) (blockhashoffset : Nat)
    (last_block_size : Option Nat) :
    RunState × Except RestoreError (Option Nat) :=
  match BlockIdHash.from_bytes block_hash with
  | none => (st, .error .binaryHashLen)
  | some bh =>
    let fetched := fetchBlock ctx.db bh st
    match fetched.2 with
    | none => (fetched.1, .error .missingBlock)
    | some buf =>
      let st1 := writeAt ctx.writing fetched.1
        (blockhashoffset + block_index * ctx.db.block_size) buf
      let st2 := update_hasher_maybe st1 buf
      match check_strict_block ctx buf last_block_size with
      | .error e => (st2, .error e)
      | .ok last2 => (st2, .ok last2)

/-- Accumulator loop for `listChunks`: `cur` is the chunk being filled. -/
def chunksGo {α : Type} (n : Nat) : List α → List α → List (List α)
  | cur, [] => if cur.isEmpty then [] else [cur]
  | cur, x :: xs =>
      if cur.length + 1 = n then (cur ++ [x]) :: chunksGo n [] xs
      else chunksGo n (cur ++ [x]) xs

/-- `[T]::chunks(n)` of Rust: consecutive chunks of length `n`, the last one
possibly shorter (`chunks` panics on `n = 0`; the only call site passes
`hash_size() = 32`).  Implemented with a structural accumulator so that it
evaluates in the kernel. -/
def listChunks {α : Type} (n : Nat) (l : List α) : List (List α) :=
  chunksGo n [] l

/-- The `for (bi, bhash) in hashes_buf.chunks(…).enumerate()` loop of
`restore_file_multiblock_main`, threading `last_block_size`. -/
def multiblock_blocks_loop (ctx : RestoreFileContext) (blockhashoffset : Nat) :
    Nat → Option Nat → List Bytes → RunState →
    RunState × Except RestoreError Unit
  | _, _, [], st => (st, .ok ())
  | bi, last, chunk :: rest, st =>
    match restore_file_multiblock_block ctx st bi chunk blockhashoffset last with
    | (st', .error e) => (st', .error e)
    | (st', .ok last') =>
        multiblock_blocks_loop ctx blockhashoffset (bi + 1) last' rest st'

/-- `restore_file_multiblock_main` (`src/restoring.rs` lines 280–309): fetch
the block-list block and process its 32-byte digests in order, with a fresh
`last_block_size` for this block-list block. -/
def restore_file_multiblock_main (ctx : RestoreFileContext) (st : RunState)
    (main_hash_index : Nat) (main_hash : BlockIdHash) :
    RunState × Except RestoreError Unit :=
  let blockhashoffset := main_hash_index * ctx.db.offset_size
  let fetched := fetchBlock ctx.db main_hash st
  match fetched.2 with
  | none => (fetched.1, .error .missingBlocklist)
  | some hashes_buf =>
      multiblock_blocks_loop ctx blockhashoffset 0 none
        (listChunks ctx.db.hash_size hashes_buf) fetched.1

/-- The `for (main_hash_index, main_hash) in block_lists.iter().enumerate()`
loop of `restore_file_multiblock`. -/
def multiblock_main_loop (ctx : RestoreFileContext) :
    Nat → List BlockIdHash → RunState → RunState × Except RestoreError Unit
  | _, [], st => (st, .ok ())
  | j, mh :: rest, st =>
    match restore_file_multiblock_main ctx st j mh with
    | (st', .error e) => (st', .error e)
    | (st', .ok _) => multiblock_main_loop ctx (j + 1) rest st'

/-- `restore_file_multiblock` (`src/restoring.rs` lines 193–202). -/
def restore_file_multiblock (ctx : RestoreFileContext) (st : RunState) :
    RunState × Except RestoreError Unit :=
  multiblock_main_loop ctx 0 ctx.block_lists st

/-- `restore_file_singleblock` (`src/restoring.rs` lines 152–172).  Note the
source builds the missing-block error with `ok_or` but binds the `Result` to
`_len` without `?` (line 162), so a missing block raises no error here: the
cleared scratch buffer (empty) is written and fed to the hasher. -/
def restore_file_singleblock (ctx : RestoreFileContext) (st : RunState) :
    RunState × Except RestoreError Unit :=
  if ctx.size ≤ 0 then (st, .ok ())
  else
    let fetched := fetchBlock ctx.db ctx.hash st
    let buf := fetched.2.getD []
    let st1 := writeAt ctx.writing fetched.1 0 buf
    let st2 := update_hasher_maybe st1 buf
    (st2, .ok ())

/-- `check_file_hash` (`src/restoring.rs` lines 311–345): nothing to check
when the declared size is 0 or no hasher was created; otherwise the finalized
accumulator must equal the entry's top-level digest. -/
def check_file_hash (ctx : RestoreFileContext) (st : RunState) :
    Except RestoreError Unit :=
  if ctx.size = 0 then .ok ()
  else
    match st.hasher with
    | none => .ok ()
    | some chunks =>
        if ctx.hash.hash ≠ ctx.sha chunks.flatten then .error .hashMismatch
        else .ok ()

/-- The single/multi dispatch of `restore_file` (lines 141–146): small files
only have one block. -/
def restore_file_blocks (ctx : RestoreFileContext) (st : RunState) :
    RunState × Except RestoreError Unit :=
  if ctx.block_lists.isEmpty then restore_file_singleblock ctx st
  else restore_file_multiblock ctx st

/-- The state at the start of `restore_file`: `Some(Sha256::new())` only for
positive sizes, a `File::create` event only in restore mode, nothing fetched
yet. -/
def initialRunState (size : Int) (absolute_path : Option (List Char)) :
    RunState :=
  { hasher := if size > 0 then some [] else none,
    events := match absolute_path with
      | some p => [.createFile p]
      | none => [],
    fetches := [] }

/-- `restore_file` (`src/restoring.rs` lines 112–150): create the hasher only
for positive sizes, create (truncate) the output file only in restore mode,
assemble the blocks, then check the file hash. -/
def restore_file (sha : Bytes → Bytes) (params : RestoreParams)
    (hash : BlockIdHash) (size : Int) (absolute_path : Option (List Char))
    (entry : FileEntry) : RunState × Except RestoreError Unit :=
  let ctx : RestoreFileContext :=
    { sha := sha, db := params.db, block_lists := entry.block_lists,
      hash := hash, size := size, strict_block_size := true,
      writing := absolute_path.isSome }
  match restore_file_blocks ctx (initialRunState size absolute_path) with
  | (st1, .error e) => (st1, .error e)
  | (st1, .ok _) => (st1, check_file_hash ctx st1)

/-- `restore_entry` (`src/restoring.rs` lines 82–111): dispatch on the entry
type; folders only create a directory (in restore mode), symlinks are
skipped. -/
def restore_entry (sha : Bytes → Bytes) (entry : FileEntry)
    (params : RestoreParams) : RunState × Except RestoreError Unit :=
  let absolute_path := (calculate_path entry params).map (fun v => v.1)
  match entry.file_type with
  | .Folder _ =>
      (match absolute_path with
       | some p => ({ hasher := none, events := [.createDir p], fetches := [] }, .ok ())
       | none => ({ hasher := none, events := [], fetches := [] }, .ok ()))
  | .File h s _ => restore_file sha params h s absolute_path entry
  | .SymLink => ({ hasher := none, events := [], fetches := [] }, .ok ())

/-- The comparator a Rust `#[derive(Ord)]` uses on a linearly ordered base
type. -/
def linCmp {α : Type} [LinearOrder α] (a b : α) : Ordering :=
  if a < b then .lt else if a = b then .eq else .gt

/-- Rust's derived `Ord` on `Option`: `None` sorts before every `Some`. -/
def optionCmp {α : Type} (cmp : α → α → Ordering) :
    Option α → Option α → Ordering
  | some x, some y => cmp x y
  | some _, none => .gt
  | none, some _ => .lt
  | none, none => .eq

/-- Rust's derived `Ord` on slices and `Vec`: lexicographic, a strict prefix
sorting first. -/
def listCmp {α : Type} (cmp : α → α → Ordering) :
    List α → List α → Ordering
  | [], [] => .eq
  | [], _ :: _ => .lt
  | _ :: _, [] => .gt
  | x :: xs, y :: ys => (cmp x y).then (listCmp cmp xs ys)

/-- `impl Ord for BlockLocation` (`src/ziparchive.rs` lines 26–34): first the
archive, then the entry index inside it. -/
def BlockLocation.cmp (a b : BlockLocation) : Ordering :=
  (linCmp a.ziplocation.path b.ziplocation.path).then
    (linCmp a.file_index b.file_index)

/-- Derived `Ord` of `BlockIdHash` (`src/blockhash.rs`): byte-wise. -/
def BlockIdHash.cmp (a b : BlockIdHash) : Ordering :=
  listCmp linCmp a.hash b.hash

/-- Rust `String` ordering: lexicographic over the characters. -/
def strCmp (a b : String) : Ordering :=
  listCmp linCmp a.data b.data

/-- Derived `Ord` of `FileType` (`src/dfiletype.rs`): variant order
`File < Folder < SymLink`, then the fields lexicographically. -/
def FileType.cmp : FileType → FileType → Ordering
  | .File h1 s1 t1, .File h2 s2 t2 =>
      (BlockIdHash.cmp h1 h2).then ((linCmp s1 s2).then (strCmp t1 t2))
  | .File _ _ _, .Folder _ => .lt
  | .File _ _ _, .SymLink => .lt
  | .Folder _, .File _ _ _ => .gt
  | .Folder m1, .Folder m2 => strCmp m1 m2
  | .Folder _, .SymLink => .lt
  | .SymLink, .File _ _ _ => .gt
  | .SymLink, .Folder _ => .gt
  | .SymLink, .SymLink => .eq

/-- Derived `Ord` of `FileEntry` (`src/dfileentry.rs`): fields in declaration
order. -/
def FileEntry.cmp (a b : FileEntry) : Ordering :=
  (listCmp linCmp a.path b.path).then
    ((strCmp a.metahash b.metahash).then
      ((linCmp a.metasize b.metasize).then
        ((FileType.cmp a.file_type b.file_type).then
          (listCmp BlockIdHash.cmp a.block_lists b.block_lists))))

/-- `get_first_bytes_location` (`src/sorting.rs` lines 13–26): the location
of a File's first byte-bearing block; `None` for folders and symlinks. -/
def get_first_bytes_location (entry : FileEntry) (db : DFileDatabase) :
    Option BlockLocation :=
  match entry.file_type with
  | .File hash _ _ =>
      if entry.block_lists.isEmpty then db.location hash
      else entry.block_lists.head?.bind (fun bid => db.location bid)
  | _ => none

/-- `compare_fileentry` (`src/sorting.rs` lines 29–34): compare the first
block locations (Rust `Option` ordering), ties broken by the full derived
`FileEntry` ordering. -/
def compare_fileentry (a b : FileEntry) (db : DFileDatabase) : Ordering :=
  (optionCmp BlockLocation.cmp (get_first_bytes_location a db)
      (get_first_bytes_location b db)).then
    (FileEntry.cmp a b)

/-- `sort_files_sequentially` (`src/sorting.rs` lines 8–10): Rust's stable
`sort_by` with the comparator, modelled by a stable merge sort on the
comparator's `≤`. -/
def sort_files_sequentially (entries : List FileEntry) (db : DFileDatabase) :
    List FileEntry :=
  entries.mergeSort (fun a b => decide (compare_fileentry a b db ≠ .gt))

/-- A lexicographic sort key for the derived `Ord` of `FileType`: the variant
rank followed by the payload fields (absent fields padded with constants). -/
def fileTypeKey : FileType → Nat × BlockIdHash × Int × String × String
  | .File h s t => (0, h, s, t, "")
  | .Folder m => (1, { hash := [] }, 0, "", m)
  | .SymLink => (2, { hash := [] }, 0, "", "")

/-- Digest of a small file located at archive 0, entry 5. -/
def gHashC6 : BlockIdHash := { hash := List.replicate 32 1 }

/-- Digest of a small file located at archive 0, entry 3. -/
def hHashC6 : BlockIdHash := { hash := List.replicate 32 2 }

/-- A database whose location oracle knows the two digests above. -/
def dbC6 : DFileDatabase :=
  { blockSize := 1024
    blocks := fun _ => none
    location := fun h =>
      if h = gHashC6 then some { ziplocation := { path := 0 }, file_index := 5 }
      else if h = hHashC6 then
        some { ziplocation := { path := 0 }, file_index := 3 }
      else none }

/-- A located small File entry (first block at archive 0, entry 5). -/
def fileG : FileEntry :=
  { path := ['a'], metahash := "", metasize := 0,
    file_type := .File gHashC6 1 "", block_lists := [] }

/-- A located small File entry (first block at archive 0, entry 3). -/
def fileH : FileEntry :=
  { path := ['c'], metahash := "", metasize := 0,
    file_type := .File hHashC6 1 "", block_lists := [] }

/-- A Folder entry (no block location). -/
def folderF : FileEntry :=
  { path := ['b'], metahash := "", metasize := 0,
    file_type := .Folder "", block_lists := [] }

/-- A concrete stand-in digest function returning 32 zero bytes. -/
def shaZeros : Bytes → Bytes := fun _ => List.replicate 32 0

/-- A concrete stand-in digest function returning 32 one bytes. -/
def shaOnes : Bytes → Bytes := fun _ => List.replicate 32 1

/-- A 32-byte digest of one bytes. -/
def hashOnes : BlockIdHash := { hash := List.replicate 32 1 }

/-- A database holding no blocks at all. -/
def dbEmpty : DFileDatabase :=
  { blockSize := 1024, blocks := fun _ => none, location := fun _ => none }

/-- A single-block File entry of size 1 whose content block is absent. -/
def entryC2 : FileEntry :=
  { path := ['a'], metahash := "", metasize := 0,
    file_type := .File hashOnes 1 "t", block_lists := [] }

/-- Restore-mode parameters over the empty database. -/
def paramsC2 : RestoreParams :=
  { db := dbEmpty, restore_path := some ['r'],
    replace_backslash_to_slash := false }

/-- A single-block File entry of declared size 0 whose top-level digest is
not the digest of the empty input. -/
def entryC10 : FileEntry :=
  { path := ['a'], metahash := "", metasize := 0,
    file_type := .File hashOnes 0 "t", block_lists := [] }

/-- Restore-mode parameters over the empty database (C10 fixture). -/
def paramsC10 : RestoreParams :=
  { db := dbEmpty, restore_path := some ['r'],
    replace_backslash_to_slash := false }

/-- A database holding exactly one content block `[7]` under `hashOnes`. -/
def dbC1 : DFileDatabase :=
  { blockSize := 1024
    blocks := fun hh => if hh = hashOnes then some [7] else none
    location := fun _ => none }

/-- A single-block File entry of size 1 whose block is present. -/
def entryC1 : FileEntry :=
  { path := ['a'], metahash := "", metasize := 0,
    file_type := .File hashOnes 1 "t", block_lists := [] }

/-- Verify-mode parameters over `dbC1`. -/
def paramsC1 : RestoreParams :=
  { db := dbC1, restore_path := none, replace_backslash_to_slash := false }

/-- Digest of the concrete block-list block fixture. -/
def mhC3 : BlockIdHash := { hash := List.replicate 32 4 }

/-- Digest of the concrete content block fixture. -/
def d0C3 : BlockIdHash := { hash := List.replicate 32 2 }

/-- A database with one block-list block (payload: the raw digest `d0C3`)
and one content block `[9]`. -/
def dbC3 : DFileDatabase :=
  { blockSize := 32
    blocks := fun hh =>
      if hh = mhC3 then some (List.replicate 32 2)
      else if hh = d0C3 then some [9]
      else none
    location := fun _ => none }

/-- A restore-mode context over `dbC3`. -/
def ctxC3 : RestoreFileContext :=
  { sha := shaZeros, db := dbC3, block_lists := [mhC3], hash := hashOnes,
    size := 1, strict_block_size := true, writing := true }

/-- An initial state with a fresh hasher and empty logs. -/
def st0C3 : RunState := { hasher := some [], events := [], fetches := [] }

/-- Digest of the short content block fixture (its block has 31 bytes). -/
def d0C4 : BlockIdHash := { hash := List.replicate 32 2 }

/-- Digest of the full content block fixture (its block has 32 bytes). -/
def d1C4 : BlockIdHash := { hash := List.replicate 32 3 }

/-- Digest of the first block-list block fixture. -/
def L0C4 : BlockIdHash := { hash := List.replicate 32 4 }

/-- Digest of the second block-list block fixture. -/
def L1C4 : BlockIdHash := { hash := List.replicate 32 5 }

/-- A database where block-list block `L0C4` covers only the short block
`d0C4` (31 bytes) and block-list block `L1C4` covers the full block `d1C4`. -/
def dbC4 : DFileDatabase :=
  { blockSize := 32
    blocks := fun hh =>
      if hh = L0C4 then some (List.replicate 32 2)
      else if hh = L1C4 then some (List.replicate 32 3)
      else if hh = d0C4 then some (List.replicate 31 7)
      else if hh = d1C4 then some (List.replicate 32 8)
      else none
    location := fun _ => none }

/-- A stand-in digest function matching `hashC4` on every input. -/
def shaC4 : Bytes → Bytes := fun _ => List.replicate 32 9

/-- The top-level digest of the C4 fixture entry. -/
def hashC4 : BlockIdHash := { hash := List.replicate 32 9 }

/-- A multi-block File entry with two block-list blocks whose first list ends
in a short (31-byte) block. -/
def entryC4 : FileEntry :=
  { path := ['a'], metahash := "", metasize := 0,
    file_type := .File hashC4 63 "", block_lists := [L0C4, L1C4] }

/-- Restore-mode parameters over `dbC4`. -/
def paramsC4 : RestoreParams :=
  { db := dbC4, restore_path := some ['r'],
    replace_backslash_to_slash := false }

/-- Digest of a block-list block whose payload names a short block followed
by a full one. -/
def mhC4w : BlockIdHash := { hash := List.replicate 32 6 }

/-- A database where one block-list block covers the short block `d0C4`
(31 bytes) and then the full block `d1C4`. -/
def dbC4w : DFileDatabase :=
  { blockSize := 32
    blocks := fun hh =>
      if hh = mhC4w then some (List.replicate 32 2 ++ List.replicate 32 3)
      else if hh = d0C4 then some (List.replicate 31 7)
      else if hh = d1C4 then some (List.replicate 32 8)
      else none
    location := fun _ => none }

/-- A verify-mode context over `dbC4w`. -/
def ctxC4w : RestoreFileContext :=
  { sha := shaZeros, db := dbC4w, block_lists := [mhC4w], hash := hashOnes,
    size := 1, strict_block_size := true, writing := false }

-- THEOREMS

/-- `Ordering.then` distributes over `swap`. -/
theorem ordering_swap_then (a b : Ordering) :
    (a.then b).swap = a.swap.then b.swap := by
  cases a <;> rfl

/-- `Ordering.then` is `.lt` iff the first is, or the first ties and the
second is. -/
theorem ordering_then_eq_lt {a b : Ordering} :
    a.then b = .lt ↔ a = .lt ∨ (a = .eq ∧ b = .lt) := by
  cases a <;> simp [Ordering.then]

/-- `Ordering.then` is `.eq` iff both are. -/
theorem ordering_then_eq_eq {a b : Ordering} :
    a.then b = .eq ↔ a = .eq ∧ b = .eq := by
  cases a <;> simp [Ordering.then]

/-- `Ordering.then` is `.gt` iff the first is, or the first ties and the
second is. -/
theorem ordering_then_eq_gt {a b : Ordering} :
    a.then b = .gt ↔ a = .gt ∨ (a = .eq ∧ b = .gt) := by
  cases a <;> simp [Ordering.then]

/-- A tie as second argument leaves `Ordering.then` unchanged. -/
theorem ordering_then_tie (a : Ordering) : a.then .eq = a := by
  cases a <;> rfl

theorem ordering_eq_then (b : Ordering) : Ordering.then .eq b = b := rfl

theorem ordering_lt_then (b : Ordering) : Ordering.then .lt b = .lt := rfl

theorem ordering_gt_then (b : Ordering) : Ordering.then .gt b = .gt := rfl

theorem strCmp_empty_eq : strCmp "" "" = .eq := rfl

theorem blockIdHashCmp_empty_eq :
    BlockIdHash.cmp { hash := [] } { hash := [] } = .eq := rfl

/-- What a comparator produced by a Rust `#[derive(Ord)]` satisfies:
antisymmetry under `swap`, transitivity of the strict part, and ties acting
as a congruence. -/
structure IsPreCmp {α : Type} (c : α → α → Ordering) : Prop where
  swap : ∀ a b, (c a b).swap = c b a
  lt_trans : ∀ a b d, c a b = .lt → c b d = .lt → c a d = .lt
  eq_congr : ∀ a b d, c a b = .eq → c a d = c b d

theorem IsPreCmp.eq_congr_right {α : Type} {c : α → α → Ordering}
    (h : IsPreCmp c) {a b : α} (d : α) (he : c a b = .eq) : c d a = c d b := by
  have h1 : c a d = c b d := h.eq_congr a b d he
  calc c d a = (c d a).swap.swap := Ordering.swap_swap.symm
    _ = (c a d).swap := by rw [h.swap d a]
    _ = (c b d).swap := by rw [h1]
    _ = c d b := h.swap b d

theorem IsPreCmp.refl {α : Type} {c : α → α → Ordering}
    (h : IsPreCmp c) (a : α) : c a a = .eq := by
  have := h.swap a a
  cases he : c a a <;> rw [he] at this <;> simp_all [Ordering.swap]

theorem IsPreCmp.le_trans {α : Type} {c : α → α → Ordering}
    (h : IsPreCmp c) {a b d : α} (h1 : c a b ≠ .gt) (h2 : c b d ≠ .gt) :
    c a d ≠ .gt := by
  cases hab : c a b with
  | gt => exact absurd hab h1
  | lt =>
    cases hbd : c b d with
    | gt => exact absurd hbd h2
    | lt => simp [h.lt_trans a b d hab hbd]
    | eq => rw [h.eq_congr_right a hbd] at hab; simp [hab]
  | eq =>
    cases hbd : c b d with
    | gt => exact absurd hbd h2
    | lt => rw [h.eq_congr a b d hab]; simp [hbd]
    | eq => rw [h.eq_congr a b d hab]; simp [hbd]

theorem IsPreCmp.total {α : Type} {c : α → α → Ordering}
    (h : IsPreCmp c) (a b : α) : c a b ≠ .gt ∨ c b a ≠ .gt := by
  cases hab : c a b with
  | gt =>
    right
    rw [← h.swap a b, hab]
    simp [Ordering.swap]
  | lt => left; simp
  | eq => left; simp

theorem linCmp_eq_lt {α : Type} [LinearOrder α] {a b : α} :
    linCmp a b = .lt ↔ a < b := by
  unfold linCmp
  by_cases h : a < b
  · simp [h]
  · by_cases h2 : a = b <;> simp [h, h2]

theorem linCmp_eq_eq {α : Type} [LinearOrder α] {a b : α} :
    linCmp a b = .eq ↔ a = b := by
  unfold linCmp
  by_cases h : a < b
  · simp [h]
    exact fun he => absurd he (ne_of_lt h)
  · by_cases h2 : a = b <;> simp [h, h2]

theorem linCmp_eq_gt {α : Type} [LinearOrder α] {a b : α} :
    linCmp a b = .gt ↔ b < a := by
  unfold linCmp
  by_cases h : a < b
  · simp [h]
    exact le_of_lt h
  · by_cases h2 : a = b
    · simp [h, h2]
    · simp [h, h2]
      exact lt_of_le_of_ne (le_of_not_lt h) (Ne.symm h2)

theorem linCmp_pre {α : Type} [LinearOrder α] :
    IsPreCmp (fun a b : α => linCmp a b) := by
  constructor
  · intro a b
    rcases lt_trichotomy a b with h | h | h
    · rw [linCmp_eq_lt.mpr h, linCmp_eq_gt.mpr h]; rfl
    · rw [linCmp_eq_eq.mpr h, linCmp_eq_eq.mpr h.symm]; rfl
    · rw [linCmp_eq_gt.mpr h, linCmp_eq_lt.mpr h]; rfl
  · intro a b d h1 h2
    exact linCmp_eq_lt.mpr (lt_trans (linCmp_eq_lt.mp h1) (linCmp_eq_lt.mp h2))
  · intro a b d h1
    rw [linCmp_eq_eq.mp h1]

theorem IsPreCmp.comap {α β : Type} {c : β → β → Ordering}
    (h : IsPreCmp c) (f : α → β) :
    IsPreCmp (fun a b : α => c (f a) (f b)) := by
  constructor
  · intro a b; exact h.swap (f a) (f b)
  · intro a b d; exact h.lt_trans (f a) (f b) (f d)
  · intro a b d; exact h.eq_congr (f a) (f b) (f d)

theorem IsPreCmp.compose {α : Type} {c1 c2 : α → α → Ordering}
    (h1 : IsPreCmp c1) (h2 : IsPreCmp c2) :
    IsPreCmp (fun a b : α => (c1 a b).then (c2 a b)) := by
  constructor
  · intro a b
    rw [ordering_swap_then, h1.swap, h2.swap]
  · intro a b d hab hbd
    rw [ordering_then_eq_lt] at hab hbd ⊢
    rcases hab with hab | ⟨hab, hab2⟩
    · rcases hbd with hbd | ⟨hbd, _⟩
      · exact Or.inl (h1.lt_trans a b d hab hbd)
      · exact Or.inl (by rw [h1.eq_congr_right a hbd] at hab; exact hab)
    · rcases hbd with hbd | ⟨hbd, hbd2⟩
      · exact Or.inl (by rw [h1.eq_congr a b d hab]; exact hbd)
      · refine Or.inr ⟨by rw [h1.eq_congr a b d hab]; exact hbd, ?_⟩
        exact h2.lt_trans a b d hab2 hbd2
  · intro a b d hab
    rw [ordering_then_eq_eq] at hab
    rw [h1.eq_congr a b d hab.1, h2.eq_congr a b d hab.2]

theorem IsPreCmp.congr {α : Type} {c1 c2 : α → α → Ordering}
    (h : IsPreCmp c1) (he : ∀ a b, c2 a b = c1 a b) : IsPreCmp c2 := by
  constructor
  · intro a b; rw [he, he]; exact h.swap a b
  · intro a b d; rw [he, he, he]; exact h.lt_trans a b d
  · intro a b d; rw [he, he, he]; exact h.eq_congr a b d

theorem listCmp_pre {α : Type} (c : α → α → Ordering) (hc : IsPreCmp c) :
    IsPreCmp (listCmp c) := by
  constructor
  · intro a
    induction a with
    | nil => intro b; cases b <;> rfl
    | cons x xs ih =>
      intro b
      cases b with
      | nil => rfl
      | cons y ys =>
        show (listCmp c (x :: xs) (y :: ys)).swap = _
        simp only [listCmp]
        rw [ordering_swap_then, hc.swap, ih]
  · intro a
    induction a with
    | nil =>
      intro b d h1 h2
      cases b with
      | nil => simp [listCmp] at h1
      | cons y ys =>
        cases d with
        | nil => simp [listCmp] at h2
        | cons z zs => simp [listCmp]
    | cons x xs ih =>
      intro b d h1 h2
      cases b with
      | nil => simp [listCmp] at h1
      | cons y ys =>
        cases d with
        | nil => simp [listCmp] at h2
        | cons z zs =>
          simp only [listCmp, ordering_then_eq_lt] at h1 h2 ⊢
          rcases h1 with h1 | ⟨h1, h1t⟩
          · rcases h2 with h2 | ⟨h2, _⟩
            · exact Or.inl (hc.lt_trans x y z h1 h2)
            · exact Or.inl (by rw [hc.eq_congr_right x h2] at h1; exact h1)
          · rcases h2 with h2 | ⟨h2, h2t⟩
            · exact Or.inl (by rw [hc.eq_congr x y z h1]; exact h2)
            · exact Or.inr ⟨by rw [hc.eq_congr x y z h1]; exact h2,
                ih ys zs h1t h2t⟩
  · intro a
    induction a with
    | nil =>
      intro b d h1
      cases b with
      | nil => rfl
      | cons y ys => simp [listCmp] at h1
    | cons x xs ih =>
      intro b d h1
      cases b with
      | nil => simp [listCmp] at h1
      | cons y ys =>
        simp only [listCmp, ordering_then_eq_eq] at h1
        cases d with
        | nil => rfl
        | cons z zs =>
          simp only [listCmp]
          rw [hc.eq_congr x y z h1.1, ih ys zs h1.2]

theorem optionCmp_pre {α : Type} (c : α → α → Ordering) (hc : IsPreCmp c) :
    IsPreCmp (optionCmp c) := by
  constructor
  · intro a b
    cases a <;> cases b <;> first
      | rfl
      | exact hc.swap _ _
  · intro a b d h1 h2
    cases a <;> cases b <;> cases d <;> simp_all [optionCmp]
    exact hc.lt_trans _ _ _ h1 h2
  · intro a b d h1
    cases a <;> cases b <;> simp_all [optionCmp]
    cases d <;> simp [optionCmp]
    exact hc.eq_congr _ _ _ h1

theorem strCmp_pre : IsPreCmp strCmp :=
  (listCmp_pre _ linCmp_pre).comap (fun s : String => s.data)

theorem blockIdHashCmp_pre : IsPreCmp BlockIdHash.cmp :=
  (listCmp_pre _ linCmp_pre).comap (fun h : BlockIdHash => h.hash)

theorem blockLocationCmp_pre : IsPreCmp BlockLocation.cmp :=
  (linCmp_pre.comap (fun l : BlockLocation => l.ziplocation.path)).compose
    (linCmp_pre.comap (fun l : BlockLocation => l.file_index))

theorem fileTypeCmp_pre : IsPreCmp FileType.cmp := by
  have base : IsPreCmp (fun a b : FileType =>
      (linCmp (fileTypeKey a).1 (fileTypeKey b).1).then
        ((BlockIdHash.cmp (fileTypeKey a).2.1 (fileTypeKey b).2.1).then
          ((linCmp (fileTypeKey a).2.2.1 (fileTypeKey b).2.2.1).then
            ((strCmp (fileTypeKey a).2.2.2.1 (fileTypeKey b).2.2.2.1).then
              (strCmp (fileTypeKey a).2.2.2.2 (fileTypeKey b).2.2.2.2))))) :=
    (linCmp_pre.comap _).compose
      ((blockIdHashCmp_pre.comap _).compose
        ((linCmp_pre.comap _).compose
          ((strCmp_pre.comap _).compose (strCmp_pre.comap _))))
  refine base.congr ?_
  intro a b
  cases a <;> cases b <;>
    simp [FileType.cmp, fileTypeKey, linCmp, strCmp_empty_eq,
      blockIdHashCmp_empty_eq, ordering_then_tie, ordering_eq_then,
      ordering_lt_then, ordering_gt_then]

theorem fileEntryCmp_pre : IsPreCmp FileEntry.cmp :=
  ((listCmp_pre _ linCmp_pre).comap (fun e : FileEntry => e.path)).compose
    ((strCmp_pre.comap (fun e : FileEntry => e.metahash)).compose
      ((linCmp_pre.comap (fun e : FileEntry => e.metasize)).compose
        ((fileTypeCmp_pre.comap (fun e : FileEntry => e.file_type)).compose
          ((listCmp_pre _ blockIdHashCmp_pre).comap
            (fun e : FileEntry => e.block_lists)))))

theorem compare_fileentry_pre (db : DFileDatabase) :
    IsPreCmp (fun a b => compare_fileentry a b db) :=
  (((optionCmp_pre _ blockLocationCmp_pre).comap
      (fun e : FileEntry => get_first_bytes_location e db))).compose
    fileEntryCmp_pre

/-- The output of the locality sort is pairwise ordered by the comparator's
non-strict order. -/
theorem sort_files_pairwise (entries : List FileEntry) (db : DFileDatabase) :
    List.Pairwise (fun a b => compare_fileentry a b db ≠ .gt)
      (sort_files_sequentially entries db) := by
  have pre := compare_fileentry_pre db
  have htrans : ∀ (a b c : FileEntry),
      decide (compare_fileentry a b db ≠ .gt) = true →
      decide (compare_fileentry b c db ≠ .gt) = true →
      decide (compare_fileentry a c db ≠ .gt) = true := by
    intro a b c h1 h2
    rw [decide_eq_true_eq] at h1 h2 ⊢
    exact pre.le_trans h1 h2
  have htotal : ∀ (a b : FileEntry),
      (decide (compare_fileentry a b db ≠ .gt) ||
        decide (compare_fileentry b a db ≠ .gt)) = true := by
    intro a b
    rcases pre.total a b with h | h <;> simp [h]
  have H := List.sorted_mergeSort htrans htotal entries
  refine H.imp ?_
  intro a b h
  rw [decide_eq_true_eq] at h
  exact h

/-- A stable sort of a two-element list keeps the order iff the comparator
allows it. -/
theorem mergeSort_pair {α : Type} (le : α → α → Bool) (a b : α) :
    List.mergeSort [a, b] le = if le a b then [a, b] else [b, a] := by
  simp [List.mergeSort]
  split <;> simp_all [List.merge]

/-- Sorting a located file before a folder: the folder moves to the front. -/
theorem sortC6_cex_eval :
    sort_files_sequentially [fileG, folderF] dbC6 = [folderF, fileG] := by
  rw [sort_files_sequentially, mergeSort_pair]
  have h : decide (compare_fileentry fileG folderF dbC6 ≠ .gt) = false := by
    decide
  rw [h]
  rfl

/-- Sorting two located files: the one with the earlier location moves first. -/
theorem sortC6_wit_eval :
    sort_files_sequentially [fileG, fileH] dbC6 = [fileH, fileG] := by
  rw [sort_files_sequentially, mergeSort_pair]
  have h : decide (compare_fileentry fileG fileH dbC6 ≠ .gt) = false := by
    decide
  rw [h]
  rfl

/-- C6 (counterexample): after the locality sort, a Folder entry (whose
first-block location is the `None` sentinel) precedes a located File entry —
Rust's derived `Option` ordering places `None` before every `Some`, so
unlocated entries sort BEFORE all located entries, not after them as the
claim states. -/
theorem c6_counterexample :
    sort_files_sequentially [fileG, folderF] dbC6 = [folderF, fileG] ∧
    folderF.file_type = .Folder "" ∧
    get_first_bytes_location folderF dbC6 = none ∧
    get_first_bytes_location fileG dbC6 =
      some { ziplocation := { path := 0 }, file_index := 5 } := by
  refine ⟨sortC6_cex_eval, rfl, rfl, by decide⟩

/-- C6 (amended): after the locality sort, whenever entry `a` precedes entry
`b` and `a` has a first-block location, `b` also has one and
`loc(a) ≤ loc(b)` in lexicographic (archive, entry index) order — so entries
without a location (Folders, Symlinks, unindexed files) sort before all
located entries — and entries with equal locations are ordered by the full
derived `FileEntry` ordering, making the result deterministic. -/
theorem c6_amended (db : DFileDatabase) (entries : List FileEntry)
    (i j : Nat) (a b : FileEntry) (hij : i < j)
    (ha : (sort_files_sequentially entries db).get? i = some a)
    (hb : (sort_files_sequentially entries db).get? j = some b) :
    ((get_first_bytes_location a db).isSome = true →
      ∃ la lb, get_first_bytes_location a db = some la ∧
        get_first_bytes_location b db = some lb ∧
        BlockLocation.cmp la lb ≠ .gt) ∧
    (get_first_bytes_location a db = get_first_bytes_location b db →
      FileEntry.cmp a b ≠ .gt) := by
  have hp := sort_files_pairwise entries db
  rw [List.pairwise_iff_get] at hp
  obtain ⟨hia, hga⟩ := List.get?_eq_some.mp ha
  obtain ⟨hjb, hgb⟩ := List.get?_eq_some.mp hb
  have hcab : compare_fileentry a b db ≠ .gt := by
    have := hp ⟨i, hia⟩ ⟨j, hjb⟩ hij
    rwa [hga, hgb] at this
  have hopt : optionCmp BlockLocation.cmp (get_first_bytes_location a db)
      (get_first_bytes_location b db) ≠ .gt := by
    intro hgt
    apply hcab
    show (optionCmp BlockLocation.cmp (get_first_bytes_location a db)
      (get_first_bytes_location b db)).then (FileEntry.cmp a b) = .gt
    rw [hgt]
    rfl
  constructor
  · intro hsome
    cases hla : get_first_bytes_location a db with
    | none => rw [hla] at hsome; simp at hsome
    | some la =>
      cases hlb : get_first_bytes_location b db with
      | none =>
        exfalso
        apply hopt
        rw [hla, hlb]
        rfl
      | some lb =>
        refine ⟨la, lb, rfl, rfl, ?_⟩
        intro hgt
        apply hopt
        rw [hla, hlb]
        exact hgt
  · intro heq
    have he : optionCmp BlockLocation.cmp (get_first_bytes_location a db)
        (get_first_bytes_location b db) = .eq := by
      rw [heq]
      exact (optionCmp_pre _ blockLocationCmp_pre).refl _
    intro hgt
    apply hcab
    show (optionCmp BlockLocation.cmp (get_first_bytes_location a db)
      (get_first_bytes_location b db)).then (FileEntry.cmp a b) = .gt
    rw [he, hgt]
    rfl

/-- Witness for the amended C6 at a concrete sorted repository: the earlier
located entry satisfies the conclusion against the later one. -/
theorem c6_amended_witness :
    ((get_first_bytes_location fileH dbC6).isSome = true →
      ∃ la lb, get_first_bytes_location fileH dbC6 = some la ∧
        get_first_bytes_location fileG dbC6 = some lb ∧
        BlockLocation.cmp la lb ≠ .gt) ∧
    (get_first_bytes_location fileH dbC6 = get_first_bytes_location fileG dbC6 →
      FileEntry.cmp fileH fileG ≠ .gt) :=
  c6_amended dbC6 [fileG, fileH] 0 1 fileH fileG (by decide)
    (by rw [sortC6_wit_eval]; rfl) (by rw [sortC6_wit_eval]; rfl)

/-- The backslash character never survives `backslashToSlash`. -/
theorem backslash_not_mem_backslashToSlash (s : List Char) :
    '\\' ∉ backslashToSlash s := by
  intro h
  rw [backslashToSlash, List.mem_map] at h
  obtain ⟨c, _, hc⟩ := h
  by_cases hb : c = '\\'
  · rw [if_pos hb] at hc
    exact absurd hc (by decide)
  · rw [if_neg hb] at hc
    exact hb hc

/-- `stripDriveColon` is the identity on strings without a backslash. -/
theorem stripDriveColon_no_backslash (s : List Char) (h : '\\' ∉ s) :
    stripDriveColon s = s := by
  induction s with
  | nil => rfl
  | cons c rest ih =>
    have hnr : '\\' ∉ rest := fun hm => h (List.mem_cons_of_mem c hm)
    have hcond : ¬(c = ':' ∧ rest.head? = some '\\') := by
      rintro ⟨-, hh⟩
      cases rest with
      | nil => simp at hh
      | cons r rt =>
        simp at hh
        exact hnr (hh ▸ List.mem_cons_self r rt)
    rw [stripDriveColon, if_neg hcond, ih hnr]

/-- `backslashToSlash` is the identity on strings without a backslash. -/
theorem backslashToSlash_no_backslash (s : List Char) (h : '\\' ∉ s) :
    backslashToSlash s = s := by
  induction s with
  | nil => rfl
  | cons c rest ih =>
    have hnr : '\\' ∉ rest := fun hm => h (List.mem_cons_of_mem c hm)
    have hc : c ≠ '\\' := fun he => h (he ▸ List.mem_cons_self c rest)
    rw [backslashToSlash] at ih ⊢
    simp only [List.map_cons, if_neg hc, ih hnr]

/-- C9 (counterexample): with the replace-backslash flag unset, applying the
path transformation twice to `a:\b:\c` strips a second `:\` occurrence, so
the transformation is not idempotent for every path and flag value. -/
theorem c9_counterexample :
    calcDfilePath false
        (calcDfilePath false ['a', ':', '\\', 'b', ':', '\\', 'c']) ≠
      calcDfilePath false ['a', ':', '\\', 'b', ':', '\\', 'c'] := by
  decide

/-- C9 (amended): when the replace-backslash flag is set, the path-string
transformation of `calculate_path` (strip the first `:\` occurrence, then
turn every backslash into a slash) is idempotent; with the flag unset it can
differ on paths with several `:\` occurrences. -/
theorem c9_amended (p : List Char) :
    calcDfilePath true (calcDfilePath true p) = calcDfilePath true p := by
  have h : '\\' ∉ backslashToSlash (stripDriveColon p) :=
    backslash_not_mem_backslashToSlash _
  show calcDfilePath true (backslashToSlash (stripDriveColon p)) = _
  rw [calcDfilePath, if_pos rfl, stripDriveColon_no_backslash _ h,
    backslashToSlash_no_backslash _ h]
  rfl

/-- C7: `from_bytes` does reject wrong lengths, but the base64 decoders do
not enforce the 32-byte invariant: decoding the empty string yields a digest
value holding 0 raw bytes (the output scratch of `decode_slice` is a
zero-length slice, so the empty input is the only one that decodes at all). -/
theorem c7_evaluation :
    BlockIdHash.from_bytes (List.replicate 31 0) = none ∧
    BlockIdHash.from_bytes (List.replicate 33 0) = none ∧
    BlockIdHash.from_base64_config b64StdChars [] =
      .ok (some { hash := [] }) ∧
    BlockIdHash.from_base64_config b64UrlChars [] =
      .ok (some { hash := [] }) ∧
    ({ hash := [] } : BlockIdHash).hash.length ≠ 32 :=
  ⟨rfl, rfl, rfl, rfl, by decide⟩

/-- C8: the digest codecs do not round-trip: for a 32-byte value the encoder
produces a 44-character string, and `from_base64_config` rejects every
non-empty input (its output scratch is a zero-length slice), so decoding the
encoding of `b` yields no digest at all, in both alphabets. -/
theorem c8_roundtrip_fails :
    (BlockIdHash.as_base64_config b64StdChars
      { hash := List.replicate 32 0 }).length = 44 ∧
    BlockIdHash.from_base64_config b64StdChars
        (BlockIdHash.as_base64_config b64StdChars
          { hash := List.replicate 32 0 }) = .ok none ∧
    BlockIdHash.from_base64_config b64UrlChars
        (BlockIdHash.as_base64_config b64UrlChars
          { hash := List.replicate 32 0 }) = .ok none :=
  ⟨rfl, rfl, rfl⟩

/-- C2: the single-block restore of a size-1 File entry whose content block
is absent from every archive does not fail with a missing-block error: the
`Result` built by `ok_or` at `restoring.rs:162` is bound to `_len` without
`?`, so the entry proceeds with an empty buffer and fails the final hash
comparison instead — and even succeeds outright when the declared digest
happens to equal the digest of the empty input. -/
theorem c2_missing_block_dropped :
    dbEmpty.blocks hashOnes = none ∧
    (restore_entry shaZeros entryC2 paramsC2).2 = .error .hashMismatch ∧
    (restore_entry shaOnes entryC2 paramsC2).2 = .ok () :=
  ⟨rfl, rfl, rfl⟩

/-- C10: a File entry with non-positive declared size and empty block lists
restores without error for every digest function and every declared top-level
digest: the single-block path returns before any block fetch, no hasher is
created, and the final hash check is a no-op. -/
theorem c10_nonpositive_size_skips_hash (sha : Bytes → Bytes)
    (params : RestoreParams) (e : FileEntry) (h : BlockIdHash) (size : Int)
    (time : String) (hft : e.file_type = .File h size time)
    (hbl : e.block_lists = []) (hsz : size ≤ 0) :
    (restore_entry sha e params).2 = .ok () ∧
    (restore_entry sha e params).1.fetches = [] ∧
    (restore_entry sha e params).1.hasher = none := by
  have hpos : ¬(size > 0) := by omega
  have h0 : (if size > 0 then (some [] : Option (List Bytes)) else none)
      = none := if_neg hpos
  simp only [restore_entry, hft]
  unfold restore_file
  unfold initialRunState
  simp only [h0]
  unfold restore_file_blocks
  simp only [hbl, List.isEmpty_nil, if_pos]
  unfold restore_file_singleblock
  simp only [if_pos hsz]
  unfold check_file_hash
  by_cases hz : size = 0 <;> simp [hz]

/-- Witness for C10: the concrete zero-size entry with a digest that is not
the digest of the empty input restores without error, fetches nothing, and
creates no hasher. -/
theorem c10_witness :
    (restore_entry shaZeros entryC10 paramsC10).2 = .ok () ∧
    (restore_entry shaZeros entryC10 paramsC10).1.fetches = [] ∧
    (restore_entry shaZeros entryC10 paramsC10).1.hasher = none :=
  c10_nonpositive_size_skips_hash shaZeros paramsC10 entryC10 hashOnes 0 "t"
    rfl rfl (by decide)

theorem writeAt_hasher (w : Bool) (st : RunState) (off : Nat) (buf : Bytes) :
    (writeAt w st off buf).hasher = st.hasher := by
  unfold writeAt
  split <;> rfl

theorem writeAt_fetches (w : Bool) (st : RunState) (off : Nat) (buf : Bytes) :
    (writeAt w st off buf).fetches = st.fetches := by
  unfold writeAt
  split <;> rfl

theorem writeAt_events_false (st : RunState) (off : Nat) (buf : Bytes) :
    (writeAt false st off buf).events = st.events := rfl

/-- The strict-block check only looks at context fields other than
`writing`. -/
theorem check_strict_block_writing (c : RestoreFileContext) (w : Bool)
    (buf : Bytes) (last : Option Nat) :
    check_strict_block { c with writing := w } buf last =
      check_strict_block c buf last := rfl

/-- One multi-block step: the hasher, the fetch log and the outcome do not
depend on the `writing` flag nor on the event log carried in. -/
theorem mb_block_indep (c : RestoreFileContext) (w : Bool) (st st' : RunState)
    (hh : st.hasher = st'.hasher) (hf : st.fetches = st'.fetches)
    (bi : Nat) (chunk : Bytes) (off : Nat) (last : Option Nat) :
    (restore_file_multiblock_block c st bi chunk off last).1.hasher =
      (restore_file_multiblock_block { c with writing := w }
        st' bi chunk off last).1.hasher ∧
    (restore_file_multiblock_block c st bi chunk off last).1.fetches =
      (restore_file_multiblock_block { c with writing := w }
        st' bi chunk off last).1.fetches ∧
    (restore_file_multiblock_block c st bi chunk off last).2 =
      (restore_file_multiblock_block { c with writing := w }
        st' bi chunk off last).2 := by
  unfold restore_file_multiblock_block
  cases hfb : BlockIdHash.from_bytes chunk with
  | none => exact ⟨hh, hf, rfl⟩
  | some bh =>
    show _ ∧ _ ∧ _
    simp only [fetchBlock]
    cases hdb : c.db.blocks bh with
    | none => simp [hdb, hh, hf]
    | some buf =>
      simp only [hdb]
      cases hcs : check_strict_block c buf last with
      | error e =>
        simp [check_strict_block_writing, hcs, update_hasher_maybe,
          writeAt_hasher, writeAt_fetches, hh, hf]
      | ok l2 =>
        simp [check_strict_block_writing, hcs, update_hasher_maybe,
          writeAt_hasher, writeAt_fetches, hh, hf]

/-- The inner block loop: hasher, fetch log and outcome are independent of
`writing` and of the incoming event log. -/
theorem mb_loop_indep (c : RestoreFileContext) (w : Bool) (off : Nat) :
    ∀ (chunks : List Bytes) (bi : Nat) (last : Option Nat)
      (st st' : RunState), st.hasher = st'.hasher → st.fetches = st'.fetches →
    (multiblock_blocks_loop c off bi last chunks st).1.hasher =
      (multiblock_blocks_loop { c with writing := w }
        off bi last chunks st').1.hasher ∧
    (multiblock_blocks_loop c off bi last chunks st).1.fetches =
      (multiblock_blocks_loop { c with writing := w }
        off bi last chunks st').1.fetches ∧
    (multiblock_blocks_loop c off bi last chunks st).2 =
      (multiblock_blocks_loop { c with writing := w }
        off bi last chunks st').2 := by
  intro chunks
  induction chunks with
  | nil => intro bi last st st' hh hf; exact ⟨hh, hf, rfl⟩
  | cons chunk rest ih =>
    intro bi last st st' hh hf
    obtain ⟨bh, bf, br⟩ := mb_block_indep c w st st' hh hf bi chunk off last
    unfold multiblock_blocks_loop
    cases hP : restore_file_multiblock_block c st bi chunk off last with
    | mk st1 r1 =>
      cases hQ : restore_file_multiblock_block { c with writing := w }
          st' bi chunk off last with
      | mk st2 r2 =>
        rw [hP, hQ] at bh bf br
        simp only at bh bf br
        cases r1 with
        | error e =>
          rw [← br]
          simp [bh, bf]
        | ok last' =>
          rw [← br]
          simp only
          exact ih (bi + 1) last' st1 st2 bh bf

/-- One block-list block: hasher, fetch log and outcome are independent of
`writing` and of the incoming event log. -/
theorem mb_main_indep (c : RestoreFileContext) (w : Bool) (st st' : RunState)
    (hh : st.hasher = st'.hasher) (hf : st.fetches = st'.fetches)
    (j : Nat) (mh : BlockIdHash) :
    (restore_file_multiblock_main c st j mh).1.hasher =
      (restore_file_multiblock_main { c with writing := w } st' j mh).1.hasher ∧
    (restore_file_multiblock_main c st j mh).1.fetches =
      (restore_file_multiblock_main { c with writing := w } st' j mh).1.fetches ∧
    (restore_file_multiblock_main c st j mh).2 =
      (restore_file_multiblock_main { c with writing := w } st' j mh).2 := by
  unfold restore_file_multiblock_main
  simp only [fetchBlock]
  cases hdb : c.db.blocks mh with
  | none => simp [hdb, hh, hf]
  | some hashes_buf =>
    simp only [hdb]
    exact mb_loop_indep c w (j * c.db.offset_size)
      (listChunks c.db.hash_size hashes_buf) 0 none
      { st with fetches := st.fetches ++ [mh] }
      { st' with fetches := st'.fetches ++ [mh] } hh (by simp [hf])

/-- The outer block-list loop: hasher, fetch log and outcome are independent
of `writing` and of the incoming event log. -/
theorem mb_mainloop_indep (c : RestoreFileContext) (w : Bool) :
    ∀ (mains : List BlockIdHash) (j : Nat) (st st' : RunState),
      st.hasher = st'.hasher → st.fetches = st'.fetches →
    (multiblock_main_loop c j mains st).1.hasher =
      (multiblock_main_loop { c with writing := w } j mains st').1.hasher ∧
    (multiblock_main_loop c j mains st).1.fetches =
      (multiblock_main_loop { c with writing := w } j mains st').1.fetches ∧
    (multiblock_main_loop c j mains st).2 =
      (multiblock_main_loop { c with writing := w } j mains st').2 := by
  intro mains
  induction mains with
  | nil => intro j st st' hh hf; exact ⟨hh, hf, rfl⟩
  | cons mh rest ih =>
    intro j st st' hh hf
    obtain ⟨bh, bf, br⟩ := mb_main_indep c w st st' hh hf j mh
    unfold multiblock_main_loop
    cases hP : restore_file_multiblock_main c st j mh with
    | mk st1 r1 =>
      cases hQ : restore_file_multiblock_main { c with writing := w }
          st' j mh with
      | mk st2 r2 =>
        rw [hP, hQ] at bh bf br
        simp only at bh bf br
        cases r1 with
        | error e =>
          rw [← br]
          simp [bh, bf]
        | ok u =>
          rw [← br]
          simp only
          exact ih (j + 1) st1 st2 bh bf

/-- The single-block path: hasher, fetch log and outcome are independent of
`writing` and of the incoming event log. -/
theorem singleblock_indep (c : RestoreFileContext) (w : Bool)
    (st st' : RunState) (hh : st.hasher = st'.hasher)
    (hf : st.fetches = st'.fetches) :
    (restore_file_singleblock c st).1.hasher =
      (restore_file_singleblock { c with writing := w } st').1.hasher ∧
    (restore_file_singleblock c st).1.fetches =
      (restore_file_singleblock { c with writing := w } st').1.fetches ∧
    (restore_file_singleblock c st).2 =
      (restore_file_singleblock { c with writing := w } st').2 := by
  unfold restore_file_singleblock
  by_cases hs : c.size ≤ 0
  · simp [hs, hh, hf]
  · simp only [hs, if_neg, fetchBlock]
    simp [update_hasher_maybe, writeAt_hasher, writeAt_fetches, hh, hf]

/-- The assembly dispatch: hasher, fetch log and outcome are independent of
`writing` and of the incoming event log. -/
theorem blocks_indep (c : RestoreFileContext) (w : Bool) (st st' : RunState)
    (hh : st.hasher = st'.hasher) (hf : st.fetches = st'.fetches) :
    (restore_file_blocks c st).1.hasher =
      (restore_file_blocks { c with writing := w } st').1.hasher ∧
    (restore_file_blocks c st).1.fetches =
      (restore_file_blocks { c with writing := w } st').1.fetches ∧
    (restore_file_blocks c st).2 =
      (restore_file_blocks { c with writing := w } st').2 := by
  unfold restore_file_blocks
  by_cases hb : c.block_lists.isEmpty
  · simp only [hb, if_pos]
    exact singleblock_indep c w st st' hh hf
  · simp only [hb, if_neg, Bool.false_eq_true, not_false_eq_true]
    unfold restore_file_multiblock
    exact mb_mainloop_indep c w c.block_lists 0 st st' hh hf

/-- One multi-block step performs no filesystem event in verify-only mode. -/
theorem mb_block_events_false (c : RestoreFileContext) (hw : c.writing = false)
    (st : RunState) (bi : Nat) (chunk : Bytes) (off : Nat)
    (last : Option Nat) :
    (restore_file_multiblock_block c st bi chunk off last).1.events =
      st.events := by
  unfold restore_file_multiblock_block
  cases hfb : BlockIdHash.from_bytes chunk with
  | none => rfl
  | some bh =>
    simp only [fetchBlock]
    cases hdb : c.db.blocks bh with
    | none => simp [hdb]
    | some buf =>
      simp only [hdb, hw]
      cases hcs : check_strict_block c buf last with
      | error e =>
        simp [hcs, update_hasher_maybe, writeAt_events_false]
      | ok l2 =>
        simp [hcs, update_hasher_maybe, writeAt_events_false]

/-- The inner block loop performs no filesystem event in verify-only mode. -/
theorem mb_loop_events_false (c : RestoreFileContext)
    (hw : c.writing = false) (off : Nat) :
    ∀ (chunks : List Bytes) (bi : Nat) (last : Option Nat) (st : RunState),
    (multiblock_blocks_loop c off bi last chunks st).1.events = st.events := by
  intro chunks
  induction chunks with
  | nil => intro bi last st; rfl
  | cons chunk rest ih =>
    intro bi last st
    unfold multiblock_blocks_loop
    have hev := mb_block_events_false c hw st bi chunk off last
    cases hP : restore_file_multiblock_block c st bi chunk off last with
    | mk st1 r1 =>
      rw [hP] at hev
      simp only at hev
      cases r1 with
      | error e => simpa using hev
      | ok last' =>
        simp only
        rw [ih (bi + 1) last' st1, hev]

/-- One block-list block performs no filesystem event in verify-only mode. -/
theorem mb_main_events_false (c : RestoreFileContext)
    (hw : c.writing = false) (st : RunState) (j : Nat) (mh : BlockIdHash) :
    (restore_file_multiblock_main c st j mh).1.events = st.events := by
  unfold restore_file_multiblock_main
  simp only [fetchBlock]
  cases hdb : c.db.blocks mh with
  | none => simp [hdb]
  | some hashes_buf =>
    simp only [hdb]
    rw [mb_loop_events_false c hw (j * c.db.offset_size)
      (listChunks c.db.hash_size hashes_buf) 0 none
      { st with fetches := st.fetches ++ [mh] }]

/-- The outer block-list loop performs no filesystem event in verify-only
mode. -/
theorem mb_mainloop_events_false (c : RestoreFileContext)
    (hw : c.writing = false) :
    ∀ (mains : List BlockIdHash) (j : Nat) (st : RunState),
    (multiblock_main_loop c j mains st).1.events = st.events := by
  intro mains
  induction mains with
  | nil => intro j st; rfl
  | cons mh rest ih =>
    intro j st
    unfold multiblock_main_loop
    have hev := mb_main_events_false c hw st j mh
    cases hP : restore_file_multiblock_main c st j mh with
    | mk st1 r1 =>
      rw [hP] at hev
      simp only at hev
      cases r1 with
      | error e => simpa using hev
      | ok u =>
        simp only
        rw [ih (j + 1) st1, hev]

/-- The single-block path performs no filesystem event in verify-only mode. -/
theorem singleblock_events_false (c : RestoreFileContext)
    (hw : c.writing = false) (st : RunState) :
    (restore_file_singleblock c st).1.events = st.events := by
  unfold restore_file_singleblock
  by_cases hs : c.size ≤ 0
  · simp [hs]
  · simp only [hs, if_neg, fetchBlock, hw]
    simp [update_hasher_maybe, writeAt_events_false]

/-- The assembly dispatch performs no filesystem event in verify-only mode. -/
theorem blocks_events_false (c : RestoreFileContext)
    (hw : c.writing = false) (st : RunState) :
    (restore_file_blocks c st).1.events = st.events := by
  unfold restore_file_blocks
  by_cases hb : c.block_lists.isEmpty
  · simp only [hb, if_pos]
    exact singleblock_events_false c hw st
  · simp only [hb, if_neg, Bool.false_eq_true, not_false_eq_true]
    unfold restore_file_multiblock
    exact mb_mainloop_events_false c hw c.block_lists 0 st

/-- The final hash check depends only on the size, digest function, declared
digest and the hasher contents. -/
theorem check_file_hash_indep (c : RestoreFileContext) (w : Bool)
    (st st' : RunState) (hh : st.hasher = st'.hasher) :
    check_file_hash c st = check_file_hash { c with writing := w } st' := by
  unfold check_file_hash
  rw [hh]

/-- `restore_file` in verify-only mode (no output path): no filesystem event
at all, while the outcome, the fetch log and the hasher coincide with a
restore-mode run over the same database. -/
theorem restore_file_verify (sha : Bytes → Bytes) (db : DFileDatabase)
    (rp1 rp2 : Option (List Char)) (f1 f2 : Bool) (hash : BlockIdHash)
    (size : Int) (e : FileEntry) (p : List Char) :
    (restore_file sha ⟨db, rp1, f1⟩ hash size none e).1.events = [] ∧
    (restore_file sha ⟨db, rp1, f1⟩ hash size none e).2 =
      (restore_file sha ⟨db, rp2, f2⟩ hash size (some p) e).2 ∧
    (restore_file sha ⟨db, rp1, f1⟩ hash size none e).1.fetches =
      (restore_file sha ⟨db, rp2, f2⟩ hash size (some p) e).1.fetches ∧
    (restore_file sha ⟨db, rp1, f1⟩ hash size none e).1.hasher =
      (restore_file sha ⟨db, rp2, f2⟩ hash size (some p) e).1.hasher := by
  unfold restore_file
  dsimp only
  simp only [Option.isSome_none, Option.isSome_some]
  obtain ⟨kh, kf, kr⟩ := blocks_indep
    { sha := sha, db := db, block_lists := e.block_lists, hash := hash,
      size := size, strict_block_size := true, writing := false } true
    (initialRunState size none) (initialRunState size (some p)) rfl rfl
  dsimp only at kh kf kr
  have kev := blocks_events_false
    { sha := sha, db := db, block_lists := e.block_lists, hash := hash,
      size := size, strict_block_size := true, writing := false } rfl
    (initialRunState size none)
  cases hPV : restore_file_blocks
      { sha := sha, db := db, block_lists := e.block_lists, hash := hash,
        size := size, strict_block_size := true, writing := false }
      (initialRunState size none) with
  | mk st1 r1 =>
    cases hPR : restore_file_blocks
        { sha := sha, db := db, block_lists := e.block_lists, hash := hash,
          size := size, strict_block_size := true, writing := true }
        (initialRunState size (some p)) with
    | mk st2 r2 =>
      rw [hPV, hPR] at kh kf kr
      rw [hPV] at kev
      simp only at kh kf kr kev
      cases r1 with
      | error err =>
        rw [← kr]
        exact ⟨kev, rfl, kf, kh⟩
      | ok u =>
        rw [← kr]
        refine ⟨kev, ?_, kf, kh⟩
        exact check_file_hash_indep
          { sha := sha, db := db, block_lists := e.block_lists, hash := hash,
            size := size, strict_block_size := true, writing := false }
          true st1 st2 kh

/-- C5: with `restore_root` absent (verify-only mode) `restore_entry`
performs no filesystem event whatsoever — no directory creation, no file
creation, no write — while its outcome, its block fetches and its hash
accumulator are exactly those of a restore-mode run over the same database
(with any restore root). -/
theorem c5_verify_only (sha : Bytes → Bytes) (db : DFileDatabase)
    (flag : Bool) (root : List Char) (e : FileEntry) :
    (restore_entry sha e ⟨db, none, flag⟩).1.events = [] ∧
    (restore_entry sha e ⟨db, none, flag⟩).2 =
      (restore_entry sha e ⟨db, some root, flag⟩).2 ∧
    (restore_entry sha e ⟨db, none, flag⟩).1.fetches =
      (restore_entry sha e ⟨db, some root, flag⟩).1.fetches ∧
    (restore_entry sha e ⟨db, none, flag⟩).1.hasher =
      (restore_entry sha e ⟨db, some root, flag⟩).1.hasher := by
  cases hft : e.file_type with
  | Folder m => simp [restore_entry, calculate_path, hft]
  | SymLink => simp [restore_entry, calculate_path, hft]
  | File h s t =>
    simp only [restore_entry, calculate_path, hft]
    dsimp only [Option.map]
    exact restore_file_verify sha db none (some root) flag flag h s e
      (pathJoin root (calcDfilePath flag e.path))

theorem mb_block_hasher_isSome (c : RestoreFileContext) (st : RunState)
    (bi : Nat) (chunk : Bytes) (off : Nat) (last : Option Nat) :
    (restore_file_multiblock_block c st bi chunk off last).1.hasher.isSome =
      st.hasher.isSome := by
  unfold restore_file_multiblock_block
  cases hfb : BlockIdHash.from_bytes chunk with
  | none => rfl
  | some bh =>
    simp only [fetchBlock]
    cases hdb : c.db.blocks bh with
    | none => simp [hdb]
    | some buf =>
      simp only [hdb]
      cases hcs : check_strict_block c buf last with
      | error e =>
        simp [hcs, update_hasher_maybe, writeAt_hasher, Option.isSome_map]
      | ok l2 =>
        simp [hcs, update_hasher_maybe, writeAt_hasher, Option.isSome_map]

theorem mb_loop_hasher_isSome (c : RestoreFileContext) (off : Nat) :
    ∀ (chunks : List Bytes) (bi : Nat) (last : Option Nat) (st : RunState),
    (multiblock_blocks_loop c off bi last chunks st).1.hasher.isSome =
      st.hasher.isSome := by
  intro chunks
  induction chunks with
  | nil => intro bi last st; rfl
  | cons chunk rest ih =>
    intro bi last st
    unfold multiblock_blocks_loop
    have hb := mb_block_hasher_isSome c st bi chunk off last
    cases hP : restore_file_multiblock_block c st bi chunk off last with
    | mk st1 r1 =>
      rw [hP] at hb
      simp only at hb
      cases r1 with
      | error e => simpa using hb
      | ok last' =>
        simp only
        rw [ih (bi + 1) last' st1, hb]

theorem mb_main_hasher_isSome (c : RestoreFileContext) (st : RunState)
    (j : Nat) (mh : BlockIdHash) :
    (restore_file_multiblock_main c st j mh).1.hasher.isSome =
      st.hasher.isSome := by
  unfold restore_file_multiblock_main
  simp only [fetchBlock]
  cases hdb : c.db.blocks mh with
  | none => simp [hdb]
  | some hashes_buf =>
    simp only [hdb]
    rw [mb_loop_hasher_isSome c (j * c.db.offset_size)
      (listChunks c.db.hash_size hashes_buf) 0 none
      { st with fetches := st.fetches ++ [mh] }]

theorem mb_mainloop_hasher_isSome (c : RestoreFileContext) :
    ∀ (mains : List BlockIdHash) (j : Nat) (st : RunState),
    (multiblock_main_loop c j mains st).1.hasher.isSome =
      st.hasher.isSome := by
  intro mains
  induction mains with
  | nil => intro j st; rfl
  | cons mh rest ih =>
    intro j st
    unfold multiblock_main_loop
    have hb := mb_main_hasher_isSome c st j mh
    cases hP : restore_file_multiblock_main c st j mh with
    | mk st1 r1 =>
      rw [hP] at hb
      simp only at hb
      cases r1 with
      | error e => simpa using hb
      | ok u =>
        simp only
        rw [ih (j + 1) st1, hb]

theorem singleblock_hasher_isSome (c : RestoreFileContext) (st : RunState) :
    (restore_file_singleblock c st).1.hasher.isSome = st.hasher.isSome := by
  unfold restore_file_singleblock
  by_cases hs : c.size ≤ 0
  · simp [hs]
  · simp only [hs, if_neg, fetchBlock]
    simp [update_hasher_maybe, writeAt_hasher, Option.isSome_map]

theorem blocks_hasher_isSome (c : RestoreFileContext) (st : RunState) :
    (restore_file_blocks c st).1.hasher.isSome = st.hasher.isSome := by
  unfold restore_file_blocks
  by_cases hb : c.block_lists.isEmpty
  · simp only [hb, if_pos]
    exact singleblock_hasher_isSome c st
  · simp only [hb, if_neg, Bool.false_eq_true, not_false_eq_true]
    unfold restore_file_multiblock
    exact mb_mainloop_hasher_isSome c c.block_lists 0 st

/-- C1: for a File entry of positive declared size whose block assembly
succeeds, the final outcome of `restore_file` is decided exactly by comparing
the digest of everything fed to the accumulator — the block buffers appended
in processing order (`j` over the block lists, `i` over each payload's
digests) — against the entry's top-level digest: success iff they agree,
`HashMismatch` iff they differ. -/
theorem c1_hash_check (sha : Bytes → Bytes) (params : RestoreParams)
    (h : BlockIdHash) (size : Int) (ap : Option (List Char)) (e : FileEntry)
    (hpos : 0 < size) (st1 : RunState)
    (hA : restore_file_blocks
        { sha := sha, db := params.db, block_lists := e.block_lists, hash := h,
          size := size, strict_block_size := true, writing := ap.isSome }
        (initialRunState size ap) = (st1, .ok ())) :
    ∃ chunks, st1.hasher = some chunks ∧
      ((restore_file sha params h size ap e).2 = .ok () ↔
        sha chunks.flatten = h.hash) ∧
      ((restore_file sha params h size ap e).2 = .error .hashMismatch ↔
        sha chunks.flatten ≠ h.hash) := by
  have hsome : st1.hasher.isSome = true := by
    have hk := blocks_hasher_isSome
      { sha := sha, db := params.db, block_lists := e.block_lists, hash := h,
        size := size, strict_block_size := true, writing := ap.isSome }
      (initialRunState size ap)
    rw [hA] at hk
    simp only at hk
    rw [hk]
    show (if size > 0 then (some [] : Option (List Bytes)) else none).isSome
      = true
    rw [if_pos hpos]
    rfl
  obtain ⟨chunks, hc⟩ := Option.isSome_iff_exists.mp hsome
  have hn0 : ¬(size = 0) := by omega
  refine ⟨chunks, hc, ?_⟩
  unfold restore_file
  dsimp only
  rw [hA]
  dsimp only
  unfold check_file_hash
  rw [if_neg hn0, hc]
  dsimp only
  by_cases hx : h.hash = sha chunks.flatten
  · rw [if_neg (by simpa using hx)]
    constructor
    · simp [hx]
    · constructor
      · intro hfalse
        exact absurd hfalse (by simp)
      · intro hne
        exact absurd hx.symm hne
  · rw [if_pos (by simpa using hx)]
    constructor
    · constructor
      · intro hfalse
        exact absurd hfalse (by simp)
      · intro heq
        exact absurd heq.symm hx
    · simp
      exact fun he => absurd he.symm hx

/-- Witness for C1 at a concrete single-block entry whose content block is
present and whose digest matches. -/
theorem c1_witness :
    ∃ chunks, (RunState.mk (some [[7]]) [] [hashOnes]).hasher = some chunks ∧
      ((restore_file shaOnes paramsC1 hashOnes 1 none entryC1).2 = .ok () ↔
        shaOnes chunks.flatten = hashOnes.hash) ∧
      ((restore_file shaOnes paramsC1 hashOnes 1 none entryC1).2 =
          .error .hashMismatch ↔ shaOnes chunks.flatten ≠ hashOnes.hash) :=
  c1_hash_check shaOnes paramsC1 hashOnes 1 none entryC1 (by decide)
    { hasher := some [[7]], events := [], fetches := [hashOnes] } rfl

/-- A successful multi-block step in restore mode appends exactly one write
event: the fetched block at offset `blockhashoffset + block_index * B`. -/
theorem mb_block_events_write (c : RestoreFileContext) (hw : c.writing = true)
    (st : RunState) (bi : Nat) (chunk : Bytes) (off : Nat)
    (last : Option Nat) (st1 : RunState) (last' : Option Nat)
    (hP : restore_file_multiblock_block c st bi chunk off last =
      (st1, .ok last')) :
    st1.events = st.events ++ [FsEvent.write (off + bi * c.db.block_size)
      (((BlockIdHash.from_bytes chunk).bind c.db.blocks).getD [])] := by
  unfold restore_file_multiblock_block at hP
  cases hfb : BlockIdHash.from_bytes chunk with
  | none => rw [hfb] at hP; simp at hP
  | some bh =>
    rw [hfb] at hP
    simp only [fetchBlock] at hP
    cases hdb : c.db.blocks bh with
    | none => rw [hdb] at hP; simp at hP
    | some buf =>
      rw [hdb] at hP
      simp only at hP
      cases hcs : check_strict_block c buf last with
      | error e => rw [hcs] at hP; simp at hP
      | ok l2 =>
        rw [hcs] at hP
        simp only [Prod.mk.injEq] at hP
        rw [← hP.1]
        simp [writeAt, hw, update_hasher_maybe, hfb, hdb]

/-- A successful run of the inner block loop in restore mode appends exactly
the block writes, in order, at offsets `off + i * B`. -/
theorem mb_loop_events_writes (c : RestoreFileContext) (hw : c.writing = true)
    (off : Nat) :
    ∀ (chunks : List Bytes) (bi : Nat) (last : Option Nat)
      (st st' : RunState),
    multiblock_blocks_loop c off bi last chunks st = (st', .ok ()) →
    st'.events = st.events ++ (List.enumFrom bi chunks).map (fun ic =>
      FsEvent.write (off + ic.1 * c.db.block_size)
        (((BlockIdHash.from_bytes ic.2).bind c.db.blocks).getD [])) := by
  intro chunks
  induction chunks with
  | nil =>
    intro bi last st st' hrun
    unfold multiblock_blocks_loop at hrun
    simp only [Prod.mk.injEq] at hrun
    rw [← hrun.1]
    simp
  | cons chunk rest ih =>
    intro bi last st st' hrun
    unfold multiblock_blocks_loop at hrun
    cases hP : restore_file_multiblock_block c st bi chunk off last with
    | mk st1 r1 =>
      rw [hP] at hrun
      cases r1 with
      | error e => simp at hrun
      | ok last' =>
        simp only at hrun
        have hev := mb_block_events_write c hw st bi chunk off last st1
          last' hP
        have htail := ih (bi + 1) last' st1 st' hrun
        rw [htail, hev]
        simp [List.enumFrom]

/-- C3: in restore mode, a successful `restore_file_multiblock_main` for
block-list block `j` writes exactly the content blocks of its payload, the
`i`-th verbatim at absolute offset `j·L + i·B` where `B` is the manifest
block size and `L = B · (B / 32) = B · HPB`; moreover `offset_size` equals
`B · HPB`, so the offset is `main_hash_index * offset_size +
block_index * block_size`. -/
theorem c3_write_offsets (ctx : RestoreFileContext)
    (hw : ctx.writing = true) (st : RunState) (j : Nat) (mh : BlockIdHash)
    (payload : Bytes) (hp : ctx.db.blocks mh = some payload)
    (st' : RunState)
    (hrun : restore_file_multiblock_main ctx st j mh = (st', .ok ())) :
    ctx.db.offset_size = ctx.db.block_size * (ctx.db.block_size / 32) ∧
    st'.events = st.events ++
      (listChunks ctx.db.hash_size payload).enum.map (fun ic =>
        FsEvent.write
          (j * (ctx.db.block_size * (ctx.db.block_size / 32)) +
            ic.1 * ctx.db.block_size)
          (((BlockIdHash.from_bytes ic.2).bind ctx.db.blocks).getD [])) := by
  have hL : ctx.db.offset_size =
      ctx.db.block_size * (ctx.db.block_size / 32) := by
    unfold DFileDatabase.offset_size DFileDatabase.block_size
    exact Nat.mul_comm _ _
  refine ⟨hL, ?_⟩
  unfold restore_file_multiblock_main at hrun
  simp only [fetchBlock, hp] at hrun
  have hloop := mb_loop_events_writes ctx hw (j * ctx.db.offset_size)
    (listChunks ctx.db.hash_size payload) 0 none
    { st with fetches := st.fetches ++ [mh] } st' hrun
  rw [hloop, hL]
  rfl

/-- Witness for C3 at a concrete one-list, one-block repository. -/
theorem c3_write_offsets_witness :
    dbC3.offset_size = dbC3.block_size * (dbC3.block_size / 32) ∧
    (RunState.mk (some [[9]]) [FsEvent.write 0 [9]] [mhC3, d0C3]).events =
      st0C3.events ++
        (listChunks dbC3.hash_size (List.replicate 32 2)).enum.map (fun ic =>
          FsEvent.write
            (0 * (dbC3.block_size * (dbC3.block_size / 32)) +
              ic.1 * dbC3.block_size)
            (((BlockIdHash.from_bytes ic.2).bind dbC3.blocks).getD [])) :=
  c3_write_offsets ctxC3 rfl st0C3 0 mhC3 (List.replicate 32 2) (by decide)
    (RunState.mk (some [[9]]) [FsEvent.write 0 [9]] [mhC3, d0C3]) rfl

/-- C4 (counterexample): a file with two block-list blocks whose FIRST list
ends in a 31-byte block restores without any error — `last_block_size` is
re-initialised for every block-list block
(`let mut last_block_size = None` in `restore_file_multiblock_main`), so the
short block at position (j = 0, i = 0), which is not the very last block of
the very last block-list block, escapes the strict-block check that the
claim requires to fail with ShortBlock. -/
theorem c4_counterexample :
    (restore_entry shaC4 entryC4 paramsC4).2 = .ok () ∧
    dbC4.blocks d0C4 = some (List.replicate 31 7) ∧
    (List.replicate 31 7 : Bytes).length ≠ dbC4.block_size ∧
    entryC4.block_lists.length = 2 := by
  exact ⟨rfl, rfl, by decide, rfl⟩

theorem check_strict_block_none (c : RestoreFileContext)
    (hstrict : c.strict_block_size = true) (buf : Bytes) :
    check_strict_block c buf none = .ok (some buf.length) := by
  unfold check_strict_block
  simp [hstrict]

theorem check_strict_block_bad (c : RestoreFileContext)
    (hstrict : c.strict_block_size = true) (buf : Bytes) (l : Nat)
    (hl : l ≠ c.db.block_size) :
    check_strict_block c buf (some l) = .error .shortBlock := by
  unfold check_strict_block
  simp [hstrict, hl]

theorem check_strict_block_good (c : RestoreFileContext)
    (hstrict : c.strict_block_size = true) (buf : Bytes) (l : Nat)
    (hl : l = c.db.block_size) :
    check_strict_block c buf (some l) = .ok (some buf.length) := by
  unfold check_strict_block
  simp [hstrict, hl]

/-- Evaluation of one multi-block step when the digest is valid and the
block present. -/
theorem mb_block_eval (c : RestoreFileContext) (st : RunState) (bi : Nat)
    (chunk : Bytes) (off : Nat) (last : Option Nat) (bh : BlockIdHash)
    (buf : Bytes) (hfb : BlockIdHash.from_bytes chunk = some bh)
    (hdb : c.db.blocks bh = some buf) :
    restore_file_multiblock_block c st bi chunk off last =
      (update_hasher_maybe (writeAt c.writing
          { st with fetches := st.fetches ++ [bh] }
          (off + bi * c.db.block_size) buf) buf,
        match check_strict_block c buf last with
        | .error e => .error e
        | .ok l2 => .ok l2) := by
  unfold restore_file_multiblock_block
  rw [hfb]
  simp only [fetchBlock]
  rw [hdb]
  dsimp only
  cases check_strict_block c buf last <;> rfl

/-- The inner block loop fails with ShortBlock when every block is present
and either the length carried in is already wrong (and a block remains), or
some non-final block of this loop is not exactly `block_size` long. -/
theorem mb_loop_short (c : RestoreFileContext)
    (hstrict : c.strict_block_size = true) (off : Nat) :
    ∀ (chunks : List Bytes) (bi : Nat) (last : Option Nat) (st : RunState),
    (∀ ch ∈ chunks,
      ((BlockIdHash.from_bytes ch).bind c.db.blocks).isSome = true) →
    ((∃ l, last = some l ∧ l ≠ c.db.block_size ∧ chunks ≠ []) ∨
      (∃ k, k + 1 < chunks.length ∧
        (((BlockIdHash.from_bytes (chunks.getD k [])).bind
          c.db.blocks).getD []).length ≠ c.db.block_size)) →
    (multiblock_blocks_loop c off bi last chunks st).2 =
      .error .shortBlock := by
  intro chunks
  induction chunks with
  | nil =>
    intro bi last st hall hbad
    rcases hbad with ⟨l, _, _, hne⟩ | ⟨k, hk, _⟩
    · exact absurd rfl hne
    · simp at hk
  | cons chunk rest ih =>
    intro bi last st hall hbad
    have hchunk := hall chunk (List.mem_cons_self _ _)
    cases hfb : BlockIdHash.from_bytes chunk with
    | none => rw [hfb] at hchunk; simp at hchunk
    | some bh =>
      rw [hfb] at hchunk
      simp only [Option.some_bind] at hchunk
      cases hdb : c.db.blocks bh with
      | none => rw [hdb] at hchunk; simp at hchunk
      | some buf =>
        have hbuf : ((BlockIdHash.from_bytes chunk).bind c.db.blocks).getD []
            = buf := by rw [hfb, Option.some_bind, hdb]; rfl
        have hrest : ∀ ch ∈ rest,
            ((BlockIdHash.from_bytes ch).bind c.db.blocks).isSome = true :=
          fun ch hm => hall ch (List.mem_cons_of_mem _ hm)
        have hnext : (∃ l, (some buf.length : Option Nat) = some l ∧
            l ≠ c.db.block_size ∧ rest ≠ []) ∨
            (∃ k, k + 1 < rest.length ∧
              (((BlockIdHash.from_bytes (rest.getD k [])).bind
                c.db.blocks).getD []).length ≠ c.db.block_size) →
            (multiblock_blocks_loop c off (bi + 1) (some buf.length)
              rest (update_hasher_maybe (writeAt c.writing
                { st with fetches := st.fetches ++ [bh] }
                (off + bi * c.db.block_size) buf) buf)).2 =
              .error .shortBlock :=
          fun hb => ih (bi + 1) (some buf.length) _ hrest hb
    -- dispatch on the incoming last length
        unfold multiblock_blocks_loop
        rw [mb_block_eval c st bi chunk off last bh buf hfb hdb]
        cases last with
        | some l =>
          by_cases hl : l = c.db.block_size
          · rw [check_strict_block_good c hstrict buf l hl]
            simp only
            apply hnext
            rcases hbad with ⟨l', hl', hlne, -⟩ | ⟨k, hk, hshort⟩
            · exfalso
              injection hl' with he
              rw [← he] at hlne
              exact hlne hl
            · cases k with
              | zero =>
                refine Or.inl ⟨buf.length, rfl, ?_, ?_⟩
                · rw [← hbuf]
                  simpa using hshort
                · simp at hk
                  intro hre
                  rw [hre] at hk
                  simp at hk
              | succ k' =>
                refine Or.inr ⟨k', ?_, ?_⟩
                · simpa using hk
                · simpa using hshort
          · rw [check_strict_block_bad c hstrict buf l hl]
        | none =>
          rw [check_strict_block_none c hstrict buf]
          simp only
          apply hnext
          rcases hbad with ⟨l', hl', -, -⟩ | ⟨k, hk, hshort⟩
          · exact absurd hl' (by simp)
          · cases k with
            | zero =>
              refine Or.inl ⟨buf.length, rfl, ?_, ?_⟩
              · rw [← hbuf]
                simpa using hshort
              · simp at hk
                intro hre
                rw [hre] at hk
                simp at hk
            | succ k' =>
              refine Or.inr ⟨k', ?_, ?_⟩
              · simpa using hk
              · simpa using hshort

/-- C4 (amended): within EACH block-list block, every content block except
that block-list block's own last one must have length exactly `B`: if the
payload's `k`-th block (with at least one block after it in the same
payload) is present but not exactly `block_size` long, the block-list block's
restore fails with ShortBlock.  The last block of every block-list block —
not only of the final one — escapes the check, because `last_block_size` is
re-initialised per block-list block. -/
theorem c4_amended (ctx : RestoreFileContext)
    (hstrict : ctx.strict_block_size = true) (st : RunState) (j : Nat)
    (mh : BlockIdHash) (payload : Bytes)
    (hp : ctx.db.blocks mh = some payload)
    (hall : ∀ ch ∈ listChunks ctx.db.hash_size payload,
      ((BlockIdHash.from_bytes ch).bind ctx.db.blocks).isSome = true)
    (k : Nat) (hk : k + 1 < (listChunks ctx.db.hash_size payload).length)
    (hshort : (((BlockIdHash.from_bytes
        ((listChunks ctx.db.hash_size payload).getD k [])).bind
        ctx.db.blocks).getD []).length ≠ ctx.db.block_size) :
    (restore_file_multiblock_main ctx st j mh).2 = .error .shortBlock := by
  unfold restore_file_multiblock_main
  simp only [fetchBlock, hp]
  exact mb_loop_short ctx hstrict (j * ctx.db.offset_size)
    (listChunks ctx.db.hash_size payload) 0 none
    { st with fetches := st.fetches ++ [mh] } hall (Or.inr ⟨k, hk, hshort⟩)

/-- Witness for the amended C4: a payload naming a 31-byte block followed by
a full block fails with ShortBlock. -/
theorem c4_amended_witness :
    (restore_file_multiblock_main ctxC4w st0C3 0 mhC4w).2 =
      .error .shortBlock :=
  c4_amended ctxC4w rfl st0C3 0 mhC4w
    (List.replicate 32 2 ++ List.replicate 32 3) (by decide) (by decide)
    0 (by decide) (by decide)
